import Mathlib

/-!
Shallow embedding of `src/post_generator.py` (a scheduled Bluesky posting
bot) and proofs about its assembly pipeline: candidate selection with
history-based exclusion, platform tag assembly, caption construction,
image collage geometry, image-count budgets, the slot dispatcher, and the
screenshot selector.

External effects (HTTP responses from the RAWG catalog, the LLM text
service, image downloads, publish success) are modelled as explicit oracle
arguments; file persistence is modelled as explicit state / event traces.
Machine integers do not overflow in any modelled path, so Nat/Int are used
directly.
-/

namespace PostGenerator

/-- A catalog record as consumed by the pipeline: `id`, `background_image`
(`None`/missing modelled as `none`, present-but-empty as `some ""`), and the
list of `short_screenshots` image URLs. -/
structure Game where
  id : Nat
  background_image : Option String
  short_screenshots : List String
deriving DecidableEq, Repr

/-- Python truthiness of `cand.get('background_image')`: the key must be
present, non-null and a non-empty string. -/
def truthyBg (g : Game) : Bool :=
  match g.background_image with
  | some s => s ≠ ""
  | none => false

/-! ## Candidate selection: `fetch_games_from_rawg`

The inner `for cand in data.get('results', [])` loop of
`fetch_games_from_rawg`: each candidate is kept when its id is not in the
history (`used`), not already chosen in this call, and its background image
is truthy; the loop breaks as soon as `count` games are collected. -/

def processBatch (count : Nat) (used : List Nat) : List Game → List Game → List Game
  | found, [] => found
  | found, c :: rest =>
    if c.id ∉ used ∧ c.id ∉ found.map (·.id) ∧ truthyBg c then
      if (found ++ [c]).length = count then found ++ [c]
      else processBatch count used (found ++ [c]) rest
    else processBatch count used found rest

/-- The outer `for _ in range(10)` loop: up to 10 query attempts, each
contributing one batch of results (a failed request contributes nothing,
modelled as an empty batch); each attempt is skipped once `count` games
have been collected. -/
def fetchFound (count : Nat) (used : List Nat) (batches : List (List Game)) : List Game :=
  (batches.take 10).foldl
    (fun found batch => if found.length ≥ count then found else processBatch count used found batch) []

/-- Result of `fetch_games_from_rawg`: the selected games, plus the history
list written to `history_games.json` when the selection is non-empty
(`savedHistory = none` means no `save_json` call happened). -/
structure FetchResult where
  found : List Game
  savedHistory : Option (List Nat)
deriving DecidableEq, Repr

/-- The history list written after a successful selection:
`used_games.extend(new_ids)` followed by `used_games[-2000:]` when its
length exceeds 2000. -/
def updatedHistory (used : List Nat) (found : List Game) : List Nat :=
  let used' := used ++ found.map (·.id)
  if used'.length > 2000 then used'.drop (used'.length - 2000) else used'

/-- Model of `fetch_games_from_rawg`: select up to `count` games from the batches,
then — still inside the fetch, before any posting — extend and persist the
used-id history. -/
def fetch_games_from_rawg (count : Nat) (used : List Nat) (batches : List (List Game)) :
    FetchResult :=
  let found := fetchFound count used batches
  if found = [] then ⟨found, none⟩
  else ⟨found, some (updatedHistory used found)⟩

/-! ### Invariant for C6 -/

/-- The selection invariant: every chosen game avoids the history and has a
truthy background image, and the chosen ids are pairwise distinct. -/
def SelInv (used : List Nat) (found : List Game) : Prop :=
  (∀ g ∈ found, g.id ∉ used ∧ truthyBg g) ∧ (found.map (·.id)).Nodup

theorem selInv_nil (used : List Nat) : SelInv used [] := by
  constructor
  · intro g hg; cases hg
  · simp

theorem selInv_snoc {used : List Nat} {found : List Game} {c : Game}
    (h : SelInv used found) (h1 : c.id ∉ used) (h2 : c.id ∉ found.map (·.id))
    (h3 : truthyBg c) : SelInv used (found ++ [c]) := by
  obtain ⟨hmem, hnd⟩ := h
  constructor
  · intro g hg
    rcases List.mem_append.mp hg with hg | hg
    · exact hmem g hg
    · rcases List.mem_singleton.mp hg with rfl
      exact ⟨h1, h3⟩
  · rw [List.map_append]
    simp only [List.map_cons, List.map_nil]
    exact List.Nodup.append hnd (List.nodup_singleton _) (by
      intro a ha hb
      rcases List.mem_singleton.mp hb with rfl
      exact h2 ha)

theorem processBatch_inv (count : Nat) (used : List Nat) :
    ∀ (batch found : List Game), SelInv used found →
      SelInv used (processBatch count used found batch) := by
  intro batch
  induction batch with
  | nil => intro found h; simpa [processBatch] using h
  | cons c rest ih =>
    intro found h
    rw [processBatch]
    by_cases hc : c.id ∉ used ∧ c.id ∉ found.map (·.id) ∧ truthyBg c
    · rw [if_pos hc]
      have h' : SelInv used (found ++ [c]) := selInv_snoc h hc.1 hc.2.1 hc.2.2
      by_cases hlen : (found ++ [c]).length = count
      · rw [if_pos hlen]; exact h'
      · rw [if_neg hlen]; exact ih (found ++ [c]) h'
    · rw [if_neg hc]; exact ih found h

theorem fetchFound_inv (count : Nat) (used : List Nat) (batches : List (List Game)) :
    SelInv used (fetchFound count used batches) := by
  unfold fetchFound
  generalize batches.take 10 = bs
  induction bs using List.reverseRecOn with
  | nil => exact selInv_nil used
  | append_singleton bs b ih =>
    rw [List.foldl_append, List.foldl_cons, List.foldl_nil]
    by_cases hlen : (List.foldl
        (fun found batch => if found.length ≥ count then found
          else processBatch count used found batch) [] bs).length ≥ count
    · simpa [hlen] using ih
    · simpa [hlen] using processBatch_inv count used b _ ih

theorem fetch_found_eq (count : Nat) (used : List Nat) (batches : List (List Game)) :
    (fetch_games_from_rawg count used batches).found = fetchFound count used batches := by
  unfold fetch_games_from_rawg
  by_cases h : fetchFound count used batches = []
  · rw [if_pos h]
  · rw [if_neg h]

/-- C6: for every history and every sequence of catalog query results, the
candidate selector never returns an item whose id is in the history, never
returns the same id twice in one call, and never returns an item whose
primary image reference is empty. -/
theorem c6_selector_filters (count : Nat) (used : List Nat) (batches : List (List Game)) :
    (∀ g ∈ (fetch_games_from_rawg count used batches).found, g.id ∉ used ∧ truthyBg g)
    ∧ ((fetch_games_from_rawg count used batches).found.map (·.id)).Nodup := by
  rw [fetch_found_eq]
  exact fetchFound_inv count used batches

theorem c6_selector_filters_witness :
    (⟨7, some "img", []⟩ : Game).id ∉ [5] ∧ truthyBg ⟨7, some "img", []⟩ :=
  (c6_selector_filters 1 [5] [[⟨7, some "img", []⟩]]).1 ⟨7, some "img", []⟩ (by decide)

/-! ## History persistence vs. post submission: `run_single_game_post` (C1)

`run_single_game_post` first calls `fetch_games_from_rawg` — which writes
`history_games.json` as soon as games are found — and only afterwards
builds the post and calls `bsky.send_post`.  The observable file/network
effects are modelled as an ordered event trace. -/

/-- Observable effects of one `run_single_game_post` run: a
`save_json('history_games.json', ids)` write, or the `send_post` submission
(with its success flag decided by the publishing collaborator). -/
inductive Ev where
  | saveGameHistory (ids : List Nat)
  | submit (ok : Bool)
deriving DecidableEq, Repr

/-- Event trace of `run_single_game_post`: the fetch (including its history
write, when any game was selected) happens first; if no game was selected
the routine returns early, otherwise it submits the post. -/
def run_single_game_post_trace (used : List Nat) (batches : List (List Game))
    (publishOk : Bool) : List Ev :=
  let r := fetch_games_from_rawg 1 used batches
  let fetchEvs := match r.savedHistory with
    | some ids => [Ev.saveGameHistory ids]
    | none => []
  match r.found with
  | [] => fetchEvs
  | _ :: _ => fetchEvs ++ [Ev.submit publishOk]

/-- C1 counterexample: a run in which the post submission fails
(`publishOk = false`, so no successful submission ever happens) yet the
history write to durable storage does occur — refuting the claim that the
history is persisted only after a successful submission. -/
theorem c1_counterexample :
    Ev.saveGameHistory [1] ∈ run_single_game_post_trace [] [[⟨1, some "x", []⟩]] false
    ∧ Ev.submit true ∉ run_single_game_post_trace [] [[⟨1, some "x", []⟩]] false := by
  decide

/-- C1 (amended): whenever a game is selected, the history write happens
inside the fetch, strictly before the post submission and regardless of
whether the submission succeeds; a failed submission does not prevent the
write, so a rerun will not select the same content again. -/
theorem c1_history_saved_before_submit (used : List Nat) (batches : List (List Game))
    (publishOk : Bool) (h : fetchFound 1 used batches ≠ []) :
    run_single_game_post_trace used batches publishOk =
      [Ev.saveGameHistory (updatedHistory used (fetchFound 1 used batches)),
       Ev.submit publishOk] := by
  unfold run_single_game_post_trace fetch_games_from_rawg
  rw [if_neg h]
  cases hf : fetchFound 1 used batches with
  | nil => exact absurd hf h
  | cons g gs => simp [hf]

theorem c1_history_saved_before_submit_witness :
    run_single_game_post_trace [] [[⟨1, some "x", []⟩]] false =
      [Ev.saveGameHistory (updatedHistory [] (fetchFound 1 [] [[⟨1, some "x", []⟩]])),
       Ev.submit false] :=
  c1_history_saved_before_submit [] [[⟨1, some "x", []⟩]] false (by decide)

/-! ## Tag assembly: `get_platform_tags` (C4, C5) -/

/-- The `PLATFORM_TAGS` dict, as an association list in insertion order
(Python dicts iterate in insertion order, which the partial-match loop
relies on). -/
def PLATFORM_TAGS : List (String × String) :=
  [("PlayStation", "#PS1"), ("PlayStation 2", "#PS2"), ("PlayStation 3", "#PS3"),
   ("Xbox", "#Xbox"), ("Xbox 360", "#Xbox360"),
   ("SNES", "#SNES"), ("NES", "#NES"), ("Nintendo 64", "#N64"), ("GameCube", "#GameCube"),
   ("Game Boy", "#GameBoy"), ("Game Boy Advance", "#GBA"), ("Game Boy Color", "#GameBoyColor"),
   ("Sega Genesis", "#SegaGenesis"), ("Dreamcast", "#Dreamcast"), ("Sega Saturn", "#SegaSaturn"),
   ("Sega CD", "#SegaCD"), ("Sega 32X", "#Sega32X"),
   ("Neo Geo", "#NeoGeo"), ("TurboGrafx-16", "#TurboGrafx16"), ("PC", "#PCGaming")]

/-- Python's substring containment `pat in s`, on character lists. -/
def containsPat (pat : List Char) : List Char → Bool
  | [] => pat.isEmpty
  | c :: rest => pat.isPrefixOf (c :: rest) || containsPat pat rest

/-- Python substring containment `pat in s` for strings. -/
def pyIn (pat s : String) : Bool := containsPat pat.data s.data

/-- Exact dict key lookup `name in PLATFORM_TAGS` followed by `PLATFORM_TAGS[name]`: exact dict
key lookup. -/
def platformTagExact (name : String) : Option String :=
  (PLATFORM_TAGS.find? (fun kv => kv.1 == name)).map (·.2)

/-- The partial-match fallback: `for key, val in PLATFORM_TAGS.items(): if
key in name: ...; break` — the first table entry (in insertion order) whose
key is a substring of the platform name. -/
def platformTagSubstring (name : String) : Option String :=
  (PLATFORM_TAGS.find? (fun kv => pyIn kv.1 name)).map (·.2)

/-- One step of the `for p in game_data.get('platforms', [])` loop. -/
def collectStep (acc : List String) (name : String) : List String :=
  match platformTagExact name with
  | some t => acc ++ [t]
  | none =>
    match platformTagSubstring name with
    | some t => acc ++ [t]
    | none => acc

/-- The collection phase of `get_platform_tags`, over the platform names
`p['platform']['name']` of the item (a missing `platforms` key yields the
empty list). Note: the loop visits every platform; it never stops at the
first match. -/
def collectTags (names : List String) : List String :=
  names.foldl collectStep []

/-- One step of first-seen deduplication. -/
def dedupStep (acc : List String) (x : String) : List String :=
  if x ∈ acc then acc else acc ++ [x]

/-- Model of `list(set(found_tags))`.  CPython's `set` iteration order is
implementation-defined; we model it as first-seen order.  Every theorem
below whose truth depends on the order of this list is stated so that it
holds under any ordering `set` may produce (in the counterexamples the
subsequent `#PCGaming` move fixes the order of the two-element results). -/
def dedupFirstSeen (l : List String) : List String :=
  l.foldl dedupStep []

/-- The "PC Gaming sort fix": when `#PCGaming` is present alongside other
tags, `found_tags.remove("#PCGaming")` then `found_tags.append("#PCGaming")`
moves it to the end. -/
def pcFix (l : List String) : List String :=
  if "#PCGaming" ∈ l ∧ 1 < l.length then (l.erase "#PCGaming") ++ ["#PCGaming"] else l

/-- Model of `get_platform_tags`: collect a tag for every matching platform,
deduplicate, move `#PCGaming` to the end, default to `["#RetroGaming"]`
when nothing matched, and return at most 2 tags. -/
def get_platform_tags (platformNames : List String) : List String :=
  let found := pcFix (dedupFirstSeen (collectTags platformNames))
  if found = [] then ["#RetroGaming"] else found.take 2

/-! ### Helper lemmas for C4/C5 -/

theorem mem_foldl_dedupStep (l : List String) :
    ∀ (acc : List String) (a : String), a ∈ l.foldl dedupStep acc ↔ a ∈ acc ∨ a ∈ l := by
  induction l with
  | nil => intro acc a; simp
  | cons x xs ih =>
    intro acc a
    rw [List.foldl_cons]
    by_cases hx : x ∈ acc
    · have hst : dedupStep acc x = acc := by unfold dedupStep; rw [if_pos hx]
      rw [hst, ih]
      constructor
      · rintro (h | h)
        · exact Or.inl h
        · exact Or.inr (List.mem_cons_of_mem _ h)
      · rintro (h | h)
        · exact Or.inl h
        · rcases List.mem_cons.mp h with rfl | h
          · exact Or.inl hx
          · exact Or.inr h
    · have hst : dedupStep acc x = acc ++ [x] := by unfold dedupStep; rw [if_neg hx]
      rw [hst, ih]
      constructor
      · rintro (h | h)
        · rcases List.mem_append.mp h with h | h
          · exact Or.inl h
          · rcases List.mem_singleton.mp h with rfl
            exact Or.inr (List.mem_cons_self _ _)
        · exact Or.inr (List.mem_cons_of_mem _ h)
      · rintro (h | h)
        · exact Or.inl (List.mem_append_left _ h)
        · rcases List.mem_cons.mp h with rfl | h
          · exact Or.inl (List.mem_append_right _ (List.mem_singleton_self _))
          · exact Or.inr h

theorem nodup_foldl_dedupStep (l : List String) :
    ∀ (acc : List String), acc.Nodup → (l.foldl dedupStep acc).Nodup := by
  induction l with
  | nil => intro acc h; simpa using h
  | cons x xs ih =>
    intro acc h
    rw [List.foldl_cons]
    by_cases hx : x ∈ acc
    · have hst : dedupStep acc x = acc := by unfold dedupStep; rw [if_pos hx]
      rw [hst]; exact ih acc h
    · have hst : dedupStep acc x = acc ++ [x] := by unfold dedupStep; rw [if_neg hx]
      rw [hst]
      refine ih _ ?_
      exact List.Nodup.append h (List.nodup_singleton _) (by
        intro a ha hb
        rcases List.mem_singleton.mp hb with rfl
        exact hx ha)

theorem mem_dedupFirstSeen (l : List String) (a : String) :
    a ∈ dedupFirstSeen l ↔ a ∈ l := by
  unfold dedupFirstSeen
  rw [mem_foldl_dedupStep]
  simp

theorem nodup_dedupFirstSeen (l : List String) : (dedupFirstSeen l).Nodup :=
  nodup_foldl_dedupStep l [] List.nodup_nil

theorem dedupFirstSeen_eq_nil (l : List String) : dedupFirstSeen l = [] ↔ l = [] := by
  constructor
  · intro h
    cases l with
    | nil => rfl
    | cons x xs =>
      exfalso
      have : x ∈ dedupFirstSeen (x :: xs) :=
        (mem_dedupFirstSeen _ _).mpr (List.mem_cons_self _ _)
      rw [h] at this
      cases this
  · rintro rfl; rfl

theorem mem_pcFix (l : List String) (a : String) : a ∈ pcFix l ↔ a ∈ l := by
  unfold pcFix
  by_cases h : "#PCGaming" ∈ l ∧ 1 < l.length
  · rw [if_pos h]
    constructor
    · intro ha
      rcases List.mem_append.mp ha with ha | ha
      · exact List.mem_of_mem_erase ha
      · rcases List.mem_singleton.mp ha with rfl
        exact h.1
    · intro ha
      by_cases hpc : a = "#PCGaming"
      · subst hpc
        exact List.mem_append_right _ (List.mem_singleton_self _)
      · exact List.mem_append_left _ (List.mem_erase_of_ne hpc |>.mpr ha)
  · rw [if_neg h]

theorem nodup_pcFix (l : List String) (h : l.Nodup) : (pcFix l).Nodup := by
  unfold pcFix
  by_cases hc : "#PCGaming" ∈ l ∧ 1 < l.length
  · rw [if_pos hc]
    refine List.Nodup.append (h.erase _) (List.nodup_singleton _) ?_
    intro a ha hb
    rcases List.mem_singleton.mp hb with rfl
    exact ((h.mem_erase_iff).mp ha).1 rfl
  · rw [if_neg hc]; exact h

theorem pcFix_ne_nil (l : List String) (h : l ≠ []) : pcFix l ≠ [] := by
  unfold pcFix
  by_cases hc : "#PCGaming" ∈ l ∧ 1 < l.length
  · rw [if_pos hc]
    simp
  · rw [if_neg hc]; exact h

theorem mem_collectTags_values (names : List String) :
    ∀ a ∈ collectTags names, a ∈ PLATFORM_TAGS.map (·.2) := by
  unfold collectTags
  suffices h : ∀ (acc : List String), (∀ a ∈ acc, a ∈ PLATFORM_TAGS.map (·.2)) →
      ∀ a ∈ names.foldl collectStep acc, a ∈ PLATFORM_TAGS.map (·.2) by
    exact h [] (by intro a ha; cases ha)
  induction names with
  | nil => intro acc hacc a ha; exact hacc a ha
  | cons n ns ih =>
    intro acc hacc a ha
    rw [List.foldl_cons] at ha
    refine ih (collectStep acc n) ?_ a ha
    intro b hb
    unfold collectStep at hb
    rcases hfe : platformTagExact n with _ | t
    · rw [hfe] at hb
      rcases hfp : platformTagSubstring n with _ | t
      · rw [hfp] at hb
        exact hacc b hb
      · rw [hfp] at hb
        rcases List.mem_append.mp hb with hb | hb
        · exact hacc b hb
        · rcases List.mem_singleton.mp hb with rfl
          unfold platformTagSubstring at hfp
          rcases hf : PLATFORM_TAGS.find? (fun kv => pyIn kv.1 n) with _ | kv
          · rw [hf] at hfp; cases hfp
          · rw [hf] at hfp
            simp only [Option.map_some'] at hfp
            cases hfp
            exact List.mem_map.mpr ⟨kv, List.mem_of_find?_eq_some hf, rfl⟩
    · rw [hfe] at hb
      rcases List.mem_append.mp hb with hb | hb
      · exact hacc b hb
      · rcases List.mem_singleton.mp hb with rfl
        unfold platformTagExact at hfe
        rcases hf : PLATFORM_TAGS.find? (fun kv => kv.1 == n) with _ | kv
        · rw [hf] at hfe; cases hfe
        · rw [hf] at hfe
          simp only [Option.map_some'] at hfe
          cases hfe
          exact List.mem_map.mpr ⟨kv, List.mem_of_find?_eq_some hf, rfl⟩

theorem retroGaming_not_value : "#RetroGaming" ∉ PLATFORM_TAGS.map (·.2) := by decide

theorem get_platform_tags_def (names : List String) :
    get_platform_tags names =
      if pcFix (dedupFirstSeen (collectTags names)) = [] then ["#RetroGaming"]
      else (pcFix (dedupFirstSeen (collectTags names))).take 2 := rfl

/-- C4 counterexample: the platform list `["SNES", "PC"]`.  Under the
claim, the scan stops at the first allow-list match (`SNES`) and the
generic PC label applies only when no platform matched — so the output
would carry a single platform label, `#SNES`.  The code instead scans every
platform and returns both labels: the generic `#PCGaming` appears even
though a retro platform matched, and the scan did not stop. -/
theorem c4_counterexample :
    get_platform_tags ["SNES", "PC"] = ["#SNES", "#PCGaming"]
    ∧ "#PCGaming" ∈ get_platform_tags ["SNES", "PC"] := by
  decide

/-- C4 (amended): platform-label selection does not stop at the first
match — every platform in the list contributes a label (exact table match,
else the first substring-matching table entry), the labels are
deduplicated, `#PCGaming` is moved behind other labels, and at most 2
labels are returned.  The generic catch-all `["#RetroGaming"]` is returned
exactly when no platform produced any label (in particular when the
platform list is empty). -/
theorem c4_platform_label_cascade (names : List String) :
    (get_platform_tags names = ["#RetroGaming"] ↔ collectTags names = [])
    ∧ get_platform_tags names ≠ []
    ∧ (get_platform_tags names).length ≤ 2 := by
  rw [get_platform_tags_def]
  by_cases hC : collectTags names = []
  · have hD : dedupFirstSeen (collectTags names) = [] := (dedupFirstSeen_eq_nil _).mpr hC
    rw [hD]
    have hF : pcFix [] = [] := rfl
    rw [hF, if_pos rfl]
    exact ⟨⟨fun _ => hC, fun _ => rfl⟩, by simp, by simp⟩
  · have hD : dedupFirstSeen (collectTags names) ≠ [] := by
      intro h; exact hC ((dedupFirstSeen_eq_nil _).mp h)
    have hF : pcFix (dedupFirstSeen (collectTags names)) ≠ [] := pcFix_ne_nil _ hD
    rw [if_neg hF]
    have htake : "#RetroGaming" ∉ (pcFix (dedupFirstSeen (collectTags names))).take 2 := by
      intro hmem
      have h1 : "#RetroGaming" ∈ pcFix (dedupFirstSeen (collectTags names)) :=
        List.take_subset _ _ hmem
      have h2 : "#RetroGaming" ∈ dedupFirstSeen (collectTags names) :=
        (mem_pcFix _ _).mp h1
      have h3 : "#RetroGaming" ∈ collectTags names := (mem_dedupFirstSeen _ _).mp h2
      exact retroGaming_not_value (mem_collectTags_values names _ h3)
    refine ⟨⟨fun h => ?_, fun h => absurd h hC⟩, ?_, List.length_take_le _ _⟩
    · exfalso
      exact htake (h ▸ List.mem_singleton_self _)
    · intro h
      rcases List.take_eq_nil_iff.mp h with h | h
      · cases h
      · exact hF h

/-- C5 counterexample: the platform list `["PC", "SNES"]`.  The collected
labels are `["#PCGaming", "#SNES"]`; deduplicating preserving first-seen
order and truncating to 2 would give `["#PCGaming", "#SNES"]`, but the code
additionally moves `#PCGaming` to the end and returns
`["#SNES", "#PCGaming"]` — so the output is not the first-seen-order
deduplication of the collected labels.  (This holds under any iteration
order of Python's `set`: the explicit move forces `#PCGaming` last.) -/
theorem c5_counterexample :
    get_platform_tags ["PC", "SNES"] = ["#SNES", "#PCGaming"]
    ∧ (dedupFirstSeen (collectTags ["PC", "SNES"])).take 2 = ["#PCGaming", "#SNES"]
    ∧ get_platform_tags ["PC", "SNES"] ≠ (dedupFirstSeen (collectTags ["PC", "SNES"])).take 2 := by
  decide

/-- C5 (amended): the tag assembler's output equals its collected labels
deduplicated, with `#PCGaming` moved to the end when other labels remain,
defaulting to `["#RetroGaming"]` when empty, truncated to 2 — consequently
the output never contains duplicate labels and has length at most the
cap of 2. -/
theorem c5_nodup_and_capped (names : List String) :
    (get_platform_tags names).Nodup ∧ (get_platform_tags names).length ≤ 2 := by
  rw [get_platform_tags_def]
  by_cases hF : pcFix (dedupFirstSeen (collectTags names)) = []
  · rw [if_pos hF]
    exact ⟨List.nodup_singleton _, by simp⟩
  · rw [if_neg hF]
    refine ⟨?_, List.length_take_le _ _⟩
    exact (List.take_sublist _ _).nodup (nodup_pcFix _ (nodup_dedupFirstSeen _))

/-! ## Caption generation: `get_claude_text` and `run_single_game_post` (C2) -/

/-- Python `str.strip()`: drop leading and trailing whitespace. -/
def pyStrip (cs : List Char) : List Char :=
  ((cs.dropWhile Char.isWhitespace).reverse.dropWhile Char.isWhitespace).reverse

/-- The post-processing of the LLM reply:
`.strip()` then `.replace("#", "").replace('"', '').replace(..., "")` for
the apostrophe character.  Replacing a single character by the empty string
deletes every occurrence, modelled as a character filter (Char 34 is the
double quote, Char 39 the apostrophe). -/
def sanitize (t : String) : String :=
  String.mk ((pyStrip t.data).filter
    (fun c => !(c == '#' || c == Char.ofNat 34 || c == Char.ofNat 39)))

/-- Model of `get_claude_text`: returns `None` when the API key is missing or the
call raises; otherwise the sanitized reply text.  The collaborator's reply
(or failure) is the oracle `resp`. -/
def get_claude_text (hasKey : Bool) (resp : Option String) : Option String :=
  if !hasKey then none
  else
    match resp with
    | none => none
    | some t => some (sanitize t)

/-- Python `a or b` on an optional string: the fallback is used when the
call failed (`None`) or returned a falsy (empty) string. -/
def pyOrStr (a : Option String) (b : String) : String :=
  match a with
  | some s => if s = "" then b else s
  | none => b

/-- The four `slot_type` values accepted by `run_single_game_post`. -/
inductive SlotType where
  | unpopular | obscure | aesthetic | memory
deriving DecidableEq, Repr

/-- The `configs[slot_type]["tag"]` field. -/
def cfgTag : SlotType → Option String
  | .unpopular => some "#UnpopularOpinion"
  | .obscure => some "#HiddenGem"
  | .aesthetic => some "#RetroAesthetics"
  | .memory => none

/-- Caption used by `run_single_game_post`:
`get_claude_text(prompt) or f"Remember {game['name']}?"`. -/
def singlePostCaption (hasKey : Bool) (resp : Option String) (name : String) : String :=
  pyOrStr (get_claude_text hasKey resp) ("Remember " ++ name ++ "?")

/-- Number of caption-producing attempts actually used: 1 when the single
LLM call yields usable text, 2 when the template fallback fires. -/
def captionAttempts (hasKey : Bool) (resp : Option String) : Nat :=
  match get_claude_text hasKey resp with
  | some s => if s = "" then 2 else 1
  | none => 2

/-- The optional "Cheeky Link" block of `run_single_game_post` (emitted for
Obscure posts when `random.random() < 0.3`); the link renders as its
display text. -/
def obscureLinkBlock : String :=
  "Uncovered in the Archive. 📂 Search your favorites: "
    ++ "nostalgia.icu/database" ++ "\n\n"

/-- The full post text built by `run_single_game_post`'s `TextBuilder`:
caption, blank line, optional link block, the two static tags, the platform
tags (each followed by a space) and the optional theme tag. -/
def renderSinglePost (slot : SlotType) (linkRoll : Bool) (caption : String)
    (platTags : List String) : String :=
  caption ++ "\n\n"
    ++ (if slot = .obscure ∧ linkRoll then obscureLinkBlock else "")
    ++ "#Retro" ++ " " ++ "#RetroGaming" ++ " "
    ++ String.join (platTags.map (· ++ " "))
    ++ ((cfgTag slot).getD "")

set_option maxRecDepth 40000 in
/-- C2 counterexample: a successful LLM reply of 301 plain characters.  The
code performs no length check, so the rendered post (caption + tags)
exceeds the 300-character ceiling — refuting "the returned (caption + tags)
length is always ≤ the hard ceiling". -/
theorem c2_counterexample :
    300 < (renderSinglePost .memory false
      (singlePostCaption true (some (String.mk (List.replicate 301 'a'))) "X")
      ["#SNES"]).length := by
  decide

/-- C2 (amended): caption generation terminates after at most 2 attempts —
a single LLM call, with the deterministic template `"Remember {name}?"`
used exactly when that call fails or returns empty text — and no length
check is performed: the rendered post is the caption plus a tag block, so
its length is the caption's length plus the tag block's length, with no
enforced ceiling. -/
theorem c2_caption_ladder (hasKey : Bool) (resp : Option String) (name : String)
    (slot : SlotType) (linkRoll : Bool) (platTags : List String) :
    captionAttempts hasKey resp ≤ 2
    ∧ (captionAttempts hasKey resp = 2 →
        singlePostCaption hasKey resp name = "Remember " ++ name ++ "?")
    ∧ (renderSinglePost slot linkRoll (singlePostCaption hasKey resp name) platTags).length
        = (singlePostCaption hasKey resp name).length
          + (renderSinglePost slot linkRoll "" platTags).length := by
  refine ⟨?_, ?_, ?_⟩
  · unfold captionAttempts
    rcases get_claude_text hasKey resp with _ | s
    · exact le_refl 2
    · by_cases hs : s = ""
      · simp [hs]
      · simp [hs]
  · intro h2
    unfold captionAttempts at h2
    unfold singlePostCaption pyOrStr
    rcases ht : get_claude_text hasKey resp with _ | s
    · rfl
    · rw [ht] at h2
      by_cases hs : s = ""
      · simp [hs]
      · simp [hs] at h2
  · unfold renderSinglePost
    simp [String.length_append]
    omega

theorem c2_caption_ladder_witness :
    captionAttempts true none ≤ 2
    ∧ singlePostCaption true none "X" = "Remember X?" := by
  refine ⟨(c2_caption_ladder true none "X" .memory false []).1, ?_⟩
  have h := (c2_caption_ladder true none "X" .memory false []).2.1 (by decide)
  exact h

/-! ## Size-budget compression: `image_to_bytes` (C3) -/

/-- Model of `image_to_bytes`: convert to RGB and save as JPEG at quality 85 —
once.  The JPEG encoder applied to the (already converted) image is the
oracle `encode : quality → bytes`.  There is no byte-ceiling parameter and
no re-encoding loop in the source. -/
def image_to_bytes (encode : Nat → List Nat) : List Nat := encode 85

/-- Modelled from the spec: the Size-Budget Compressor loop the spec
describes (start at quality 85, step down by 15 per attempt, up to 5
attempts, return the first encoding under the byte ceiling, else the last
attempt).  This definition follows the spec's words and is the spec side of
the refinement comparison for C3; no such loop exists in the source. -/
def specCompressGo (encode : Nat → List Nat) (ceiling : Nat) : List Nat → List Nat
  | [] => []
  | [q] => encode q
  | q :: q' :: rest =>
    if (encode q).length < ceiling then encode q
    else specCompressGo encode ceiling (q' :: rest)

/-- Modelled from the spec: the full 5-attempt quality ladder
85, 70, 55, 40, 25. -/
def specSizeBudgetCompressor (encode : Nat → List Nat) (ceiling : Nat) : List Nat :=
  specCompressGo encode ceiling [85, 70, 55, 40, 25]

/-- C3 counterexample: an encoder whose quality-85 output (10 bytes) is
over the 5-byte ceiling while lower qualities fit.  The claimed compressor
would re-encode and return the 1-byte quality-70 encoding; `image_to_bytes`
performs no re-encoding and returns the oversized quality-85 buffer. -/
theorem c3_counterexample :
    image_to_bytes (fun q => if 85 ≤ q then List.replicate 10 0 else [0])
      ≠ specSizeBudgetCompressor (fun q => if 85 ≤ q then List.replicate 10 0 else [0]) 5
    ∧ 5 < (image_to_bytes (fun q => if 85 ≤ q then List.replicate 10 0 else [0])).length := by
  decide

/-- C3 (amended): `image_to_bytes` performs a single JPEG encoding at the
fixed quality 85, with no byte ceiling and no re-encoding loop; its output
is that single encoding, and it agrees with the spec's Size-Budget
Compressor precisely when the quality-85 encoding already fits under the
ceiling. -/
theorem c3_single_encoding (encode : Nat → List Nat) (ceiling : Nat)
    (h : (encode 85).length < ceiling) :
    image_to_bytes encode = encode 85
    ∧ image_to_bytes encode = specSizeBudgetCompressor encode ceiling := by
  refine ⟨rfl, ?_⟩
  unfold image_to_bytes specSizeBudgetCompressor specCompressGo
  rw [if_pos h]

theorem c3_single_encoding_witness :
    image_to_bytes (fun _ => [1]) = (fun (_ : Nat) => [1]) 85
    ∧ image_to_bytes (fun _ => [1]) = specSizeBudgetCompressor (fun _ => [1]) 2 :=
  c3_single_encoding (fun _ => [1]) 2 (by decide)

/-! ## Collage compositing: `create_collage` (C9) -/

/-- Pixel dimensions of a decoded image. -/
structure Dim where
  w : Nat
  h : Nat
deriving DecidableEq, Repr

/-- The per-image resize of `create_collage`:
`aspect = img.width / img.height; new_w = int(target_h * aspect)` with
`target_h = 600`, i.e. the width preserving aspect ratio at height 600
(exact rational floor; CPython computes the same value through
double-precision floats for realistic dimensions). -/
def resizedW (d : Dim) : Nat := 600 * d.w / d.h

/-- A pasted image: top-left corner and size on the canvas. -/
structure Placed where
  x : Nat
  y : Nat
  w : Nat
  h : Nat
deriving DecidableEq, Repr

/-- The two grid modes used by the callers: `(2,1)` horizontal pair and
`(2,2)` square (any other tuple never occurs in the source). -/
inductive Grid where
  | pair | square
deriving DecidableEq, Repr

/-- The left-to-right paste loop of pair mode: each image is pasted at the
current `x_off`, which then advances by that image's width — no gaps. -/
def pairGo (xOff : Nat) : List Nat → List Placed
  | [] => []
  | w :: rest => ⟨xOff, 0, w, 600⟩ :: pairGo (xOff + w) rest

/-- Model of `create_collage`: `None` on an empty list; otherwise each image is
resized to height 600 preserving aspect ratio, then pasted either
left-to-right (pair mode, canvas width = sum of resized widths) or
center-cropped to 600×600 quadrants of a 1200×1200 canvas (square mode,
first 4 images, row-major order).  The result is the canvas dimensions
plus the paste rectangles. -/
def create_collage (dims : List Dim) (grid : Grid) : Option (Dim × List Placed) :=
  match dims with
  | [] => none
  | _ :: _ =>
    let resized := dims.map (fun d => (⟨resizedW d, 600⟩ : Dim))
    match grid with
    | .pair =>
      some (⟨(resized.map (·.w)).sum, 600⟩, pairGo 0 (resized.map (·.w)))
    | .square =>
      some (⟨1200, 1200⟩,
        (resized.take 4).enum.map (fun p => ⟨(p.1 % 2) * 600, (p.1 / 2) * 600, 600, 600⟩))

/-- C9: in horizontal-pair mode, for any 2 images with positive dimensions,
the collage width is the sum of the two resized widths, its height is the
600-pixel target height, and the images are pasted left-to-right with no
gaps (the second paste starts exactly where the first ends). -/
theorem c9_pair_collage (d1 d2 : Dim) (_h1 : 0 < d1.w) (_h2 : 0 < d1.h)
    (_h3 : 0 < d2.w) (_h4 : 0 < d2.h) :
    create_collage [d1, d2] .pair =
      some (⟨resizedW d1 + resizedW d2, 600⟩,
        [⟨0, 0, resizedW d1, 600⟩, ⟨resizedW d1, 0, resizedW d2, 600⟩]) := by
  unfold create_collage
  simp [pairGo]

theorem c9_pair_collage_witness :
    create_collage [⟨800, 600⟩, ⟨300, 600⟩] .pair =
      some (⟨resizedW ⟨800, 600⟩ + resizedW ⟨300, 600⟩, 600⟩,
        [⟨0, 0, resizedW ⟨800, 600⟩, 600⟩,
         ⟨resizedW ⟨800, 600⟩, 0, resizedW ⟨300, 600⟩, 600⟩]) :=
  c9_pair_collage ⟨800, 600⟩ ⟨300, 600⟩ (by decide) (by decide) (by decide) (by decide)

/-! ## Secondary screenshot selection: `get_distinct_screenshot` (C10) -/

/-- Model of `get_distinct_screenshot`: `None` when the record has no screenshots;
otherwise the first screenshot URL different from `exclude_url`, falling
back to the first screenshot when every URL equals the excluded one.
`screens` is the list of `shot['image']` URLs; `exclude_url` defaults to
`None` in the source, modelled as `none`. -/
def get_distinct_screenshot (screens : List String) (excludeUrl : Option String) :
    Option String :=
  match screens with
  | [] => none
  | s0 :: _ =>
    match screens.find? (fun s => some s != excludeUrl) with
    | some s => some s
    | none => some s0

/-- C10: the selector returns `None` exactly when the screenshot list is
empty; otherwise it returns the first screenshot URL differing from the
excluded URL, and when every screenshot equals the excluded URL it falls
back to the first screenshot — so the returned URL is not guaranteed to
differ from the excluded one. -/
theorem c10_distinct_screenshot (screens : List String) (excludeUrl : Option String) :
    (get_distinct_screenshot screens excludeUrl = none ↔ screens = [])
    ∧ (∀ s, screens.find? (fun t => some t != excludeUrl) = some s →
        get_distinct_screenshot screens excludeUrl = some s)
    ∧ ((∀ t ∈ screens, some t = excludeUrl) →
        get_distinct_screenshot screens excludeUrl = screens.head?) := by
  refine ⟨?_, ?_, ?_⟩
  · cases screens with
    | nil => simp [get_distinct_screenshot]
    | cons s0 rest =>
      constructor
      · intro h
        unfold get_distinct_screenshot at h
        rcases hf : (s0 :: rest).find? (fun s => some s != excludeUrl) with _ | s <;>
          rw [hf] at h <;> cases h
      · intro h; cases h
  · intro s hf
    cases screens with
    | nil => cases hf
    | cons s0 rest =>
      unfold get_distinct_screenshot
      rw [hf]
  · intro hall
    cases screens with
    | nil => rfl
    | cons s0 rest =>
      unfold get_distinct_screenshot
      have hf : (s0 :: rest).find? (fun s => some s != excludeUrl) = none := by
        rw [List.find?_eq_none]
        intro t ht
        have := hall t ht
        simp [this]
      rw [hf]
      rfl

theorem c10_distinct_screenshot_witness :
    get_distinct_screenshot ["a", "b"] (some "a") = some "b"
    ∧ get_distinct_screenshot ["a", "a"] (some "a") = (["a", "a"] : List String).head? := by
  constructor
  · exact (c10_distinct_screenshot ["a", "b"] (some "a")).2.1 "b" (by decide)
  · exact (c10_distinct_screenshot ["a", "a"] (some "a")).2.2 (by decide)

/-! ## Image-count budget of every posting routine (C7)

Each routine builds `imgs_to_upload` from: an optional main/collage image,
optional screenshots, and the optional promo image; success of each
download/upload is an oracle `Bool`.  The lists below are the alt-text
lists of the images actually attached to the submitted post. -/

/-- An optional image slot: present (with its alt text) or skipped. -/
def optImg (present : Bool) (alt : String) : List String :=
  if present then [alt] else []

/-- Images of `run_slot_1_ad`: the post is only sent when the ad image file exists,
and then carries exactly that one image. -/
def slot1AdImages (featureName : String) : List String := [featureName]

/-- Images of `run_generic_q`: at most one console image is embedded. -/
def genericQImages (hasImage : Bool) (alt : String) : List String :=
  optImg hasImage alt

/-- Images of `run_rivalry`: collage, one screenshot per game, promo — truncated by
`imgs_to_upload[:4]`. -/
def rivalryImages (collageOk s1 s2 promo : Bool) (n1 n2 : String) : List String :=
  (optImg collageOk "Rivalry Collage" ++ optImg s1 n1 ++ optImg s2 n2
    ++ optImg promo "Nostalgia.icu").take 4

/-- The screenshot loop of `run_single_game_post` / `run_on_this_day`:
walk `short_screenshots`, skip the main image URL and failed downloads,
stop once `screens_added >= 2` (checked at the top of each iteration). -/
def sgpScreensGo (mainUrl : String) (dl : String → Bool) : List String → Nat → Nat
  | [], n => n
  | s :: rest, n =>
    if n ≥ 2 then n
    else if s = mainUrl then sgpScreensGo mainUrl dl rest n
    else if dl s then sgpScreensGo mainUrl dl rest (n + 1)
    else sgpScreensGo mainUrl dl rest n

/-- Images of `run_single_game_post`: main image, up to 2 screenshots, promo —
truncated by `imgs_to_upload[:4]`. -/
def singleGamePostImages (mainOk : Bool) (shots : List String) (mainUrl : String)
    (dl : String → Bool) (promo : Bool) (name : String) : List String :=
  (optImg mainOk name ++ List.replicate (sgpScreensGo mainUrl dl shots 0) "Gameplay"
    ++ optImg promo "Nostalgia.icu").take 4

/-- Images of `run_fact`: main image, one distinct screenshot, promo — submitted
WITHOUT an `[:4]` truncation, so the bound rests on the construction
itself (at most 3 images). -/
def factImages (mainOk sOk promo : Bool) (name : String) : List String :=
  optImg mainOk (name ++ " Box Art") ++ optImg sOk "Gameplay"
    ++ optImg promo "Nostalgia.icu"

/-- Images of `run_on_this_day`: main image, up to 2 screenshots, promo — truncated
by `imgs_to_upload[:4]`. -/
def onThisDayImages (mainOk : Bool) (shots : List String) (mainUrl : String)
    (dl : String → Bool) (promo : Bool) (name : String) : List String :=
  (optImg mainOk (name ++ " Box Art")
    ++ List.replicate (sgpScreensGo mainUrl dl shots 0) "Gameplay"
    ++ optImg promo "Nostalgia.icu").take 4

/-- Images of `run_starter_pack`: the 2×2 collage, one screenshot for each of the
first two games (`for g in games[:2]`), promo — truncated by
`imgs_to_upload[:4]`. -/
def starterPackImages (collageOk s1 s2 promo : Bool) : List String :=
  (optImg collageOk "Starter Pack" ++ optImg s1 "Gameplay" ++ optImg s2 "Gameplay"
    ++ optImg promo "Nostalgia.icu").take 4

/-- C7: every post submitted by any routine of the pipeline carries at most
4 images, for all download/upload outcomes. -/
theorem c7_at_most_four_images (adName alt n1 n2 name : String)
    (hasImage collageOk s1 s2 promo mainOk sOk : Bool)
    (shots : List String) (mainUrl : String) (dl : String → Bool) :
    (slot1AdImages adName).length ≤ 4
    ∧ (genericQImages hasImage alt).length ≤ 4
    ∧ (rivalryImages collageOk s1 s2 promo n1 n2).length ≤ 4
    ∧ (singleGamePostImages mainOk shots mainUrl dl promo name).length ≤ 4
    ∧ (factImages mainOk sOk promo name).length ≤ 4
    ∧ (onThisDayImages mainOk shots mainUrl dl promo name).length ≤ 4
    ∧ (starterPackImages collageOk s1 s2 promo).length ≤ 4 := by
  refine ⟨by simp [slot1AdImages], ?_, List.length_take_le _ _, List.length_take_le _ _,
    ?_, List.length_take_le _ _, List.length_take_le _ _⟩
  · cases hasImage <;> simp [genericQImages, optImg]
  · cases mainOk <;> cases sOk <;> cases promo <;> simp [factImages, optImg]

/-! ## Slot dispatch: `main` (C8) -/

/-- The static `SCHEDULE` table: weekday ↦ (hour ↦ slot id), as an
association list in insertion order (`SCHEDULE.get(day, {})` yields the
empty mapping for out-of-range days). -/
def SCHEDULE : Nat → List (Nat × Nat)
  | 0 => [(9, 1), (15, 2), (21, 13)]
  | 1 => [(9, 9), (15, 3), (21, 14)]
  | 2 => [(9, 4), (15, 17), (21, 13)]
  | 3 => [(9, 6), (15, 18), (21, 14)]
  | 4 => [(9, 7), (15, 8), (21, 13)]
  | 5 => [(9, 9), (15, 10), (21, 15)]
  | 6 => [(9, 11), (15, 12), (21, 13)]
  | _ => []

/-- Hour lookup `SCHEDULE.get(day, ...).get(hour)` (the default is the empty dict). -/
def scheduleLookup (day hour : Nat) : Option Nat :=
  ((SCHEDULE day).find? (fun p => p.1 == hour)).map (·.2)

/-- Model of `forced_input.replace("Slot", "")`: delete every (non-overlapping,
left-to-right) occurrence of `"Slot"`. -/
def removeSlotWord : List Char → List Char
  | 'S' :: 'l' :: 'o' :: 't' :: rest => removeSlotWord rest
  | c :: rest => c :: removeSlotWord rest
  | [] => []

/-- Python `int(...)` on an already-stripped digit string: at least one
digit, all digits (the underscore-separator extension never occurs in the
dispatcher's inputs). -/
def digitsToNat (cs : List Char) : Option Nat :=
  if cs ≠ [] ∧ cs.all Char.isDigit then
    some (cs.foldl (fun n c => n * 10 + (c.toNat - 48)) 0)
  else none

/-- Python `int(s)` for a stripped string: optional sign then digits;
anything else raises, modelled as `none`. -/
def pyInt (s : String) : Option Int :=
  match s.data with
  | [] => none
  | c :: rest =>
    if c = '-' then (digitsToNat rest).map (fun n => -(n : Int))
    else if c = '+' then (digitsToNat rest).map (fun n => (n : Int))
    else (digitsToNat (c :: rest)).map (fun n => (n : Int))

/-- The manual-override parser:
`int(forced_input.split(":")[0].replace("Slot", "").strip())` — take the
text before the first colon, delete `"Slot"`, strip whitespace, parse as an
integer; a parse failure aborts the run (`None`). -/
def parseSlotId (forced : String) : Option Int :=
  pyInt (String.mk (pyStrip (removeSlotWord (forced.data.takeWhile (· ≠ ':')))))

/-- The posting routines bound to slot ids in `main`'s dispatch chain. -/
inductive Routine where
  | ad | genericQ | rivalry | singleGame (slotType : SlotType) | fact | starterPack
  | onThisDay
deriving DecidableEq, Repr

/-- Dispatch chain of `main` (`if slot_id == 1: ... elif ...`); unknown ids
fall through to a logged no-op (`none`). -/
def routineOf (slotId : Int) : Option Routine :=
  if slotId = 1 then some .ad
  else if slotId = 2 then some .genericQ
  else if slotId = 3 then some .rivalry
  else if slotId = 4 then some (.singleGame .unpopular)
  else if slotId = 5 then some .fact
  else if slotId = 6 then some (.singleGame .obscure)
  else if slotId = 7 then some .starterPack
  else if slotId = 8 then some .genericQ
  else if slotId = 9 then some (.singleGame .aesthetic)
  else if slotId = 10 then some .fact
  else if slotId = 11 then some (.singleGame .memory)
  else if slotId = 12 then some .fact
  else if slotId = 13 then some .onThisDay
  else if slotId = 14 then some .fact
  else if slotId = 15 then some (.singleGame .memory)
  else if slotId = 17 then some .genericQ
  else if slotId = 18 then some .rivalry
  else none

/-- Slot resolution in `main`: the manual `"Slot …"` override is checked
first; then the manual `"Auto-Detect"` mode (today's first scheduled
slot); only a non-manual run consults the (weekday, hour) schedule; a
manual run with neither keyword resolves nothing. -/
def resolveSlot (isManual : Bool) (forced : String) (day hour : Nat) : Option Int :=
  if isManual ∧ pyIn "Slot" forced then parseSlotId forced
  else if isManual ∧ pyIn "Auto-Detect" forced then
    ((SCHEDULE day).head?).map (fun p => (p.2 : Int))
  else if ¬ isManual then (scheduleLookup day hour).map (fun n => (n : Int))
  else none

/-- The routine `main` invokes for a given trigger. -/
def dispatchedRoutine (isManual : Bool) (forced : String) (day hour : Nat) :
    Option Routine :=
  (resolveSlot isManual forced day hour).bind routineOf

/-- C8: when a manual override text containing `"Slot"` parses to id `n`,
the dispatcher resolves `n` and dispatches the routine bound to `n` — for
every weekday and hour, so the override takes precedence unconditionally
over the static schedule lookup. -/
theorem c8_manual_override (forced : String) (day hour : Nat) (n : Int)
    (hin : pyIn "Slot" forced = true) (hp : parseSlotId forced = some n) :
    resolveSlot true forced day hour = some n
    ∧ dispatchedRoutine true forced day hour = routineOf n := by
  have h1 : resolveSlot true forced day hour = parseSlotId forced := by
    unfold resolveSlot
    rw [if_pos ⟨rfl, hin⟩]
  refine ⟨by rw [h1, hp], ?_⟩
  unfold dispatchedRoutine
  rw [h1, hp]
  rfl

/-- The override `"Slot 6: Obscure"` resolves to 6 (the Obscure
single-game routine) on a Thursday at 15:00 UTC, when the schedule itself
would run slot 18. -/
theorem c8_manual_override_witness :
    resolveSlot true "Slot 6: Obscure" 3 15 = some 6
    ∧ dispatchedRoutine true "Slot 6: Obscure" 3 15 = routineOf 6 :=
  c8_manual_override "Slot 6: Obscure" 3 15 6 (by decide) (by decide)

end PostGenerator
